import Mathlib

/-!
Verification development for the shiva document-conversion core.

Strings are modelled as lists of Unicode code points (List Nat) and byte
buffers as lists of byte values.  External library functions (the lopdf
standard text decoder and the Unicode character classifications of the
Rust standard library) are supplied through an explicit environment, so
every theorem quantifies over them.  All definitions are executable.
-/

namespace Shiva

/-- Code points of a string literal, used to transcribe the string
constants of the source. -/
def strCodes (s : String) : List Nat := s.data.map Char.toNat

/-- Environment of external functions: the standard lopdf text decoder
(PdfDocument decode_text) and the Unicode character classes used by the
Rust standard library (char is_alphanumeric and char is_whitespace). -/
structure DecodeEnv where
  stdDecode : Option (List Nat) → List Nat → List Nat
  isAlnum : Nat → Bool
  isWs : Nat → Bool

/-- Does the list start with the given pattern (String starts_with)? -/
def startsWith : List Nat → List Nat → Bool
  | _, [] => true
  | [], _ :: _ => false
  | a :: as, b :: bs => a == b && startsWith as bs

/-- Substring containment test (String contains on a literal pattern). -/
def containsSeq : List Nat → List Nat → Bool
  | [], needle => needle.isEmpty
  | a :: as, needle => startsWith (a :: as) needle || containsSeq as needle

/-- Strict UTF-8 decoding (String from_utf8): rejects continuation
errors, overlong forms, surrogates and out-of-range code points. -/
def utf8Decode : List Nat → Option (List Nat)
  | [] => some []
  | b1 :: rest =>
    if b1 < 128 then (utf8Decode rest).map (fun t => b1 :: t)
    else if 194 ≤ b1 && b1 ≤ 223 then
      match rest with
      | b2 :: rest2 =>
        if 128 ≤ b2 && b2 ≤ 191 then
          (utf8Decode rest2).map (fun t => ((b1 - 192) * 64 + (b2 - 128)) :: t)
        else none
      | [] => none
    else if 224 ≤ b1 && b1 ≤ 239 then
      match rest with
      | b2 :: b3 :: rest3 =>
        if (128 ≤ b2 && b2 ≤ 191) && (128 ≤ b3 && b3 ≤ 191) then
          let cp := (b1 - 224) * 4096 + (b2 - 128) * 64 + (b3 - 128)
          if 2048 ≤ cp && !(55296 ≤ cp && cp ≤ 57343) then
            (utf8Decode rest3).map (fun t => cp :: t)
          else none
        else none
      | _ => none
    else if 240 ≤ b1 && b1 ≤ 244 then
      match rest with
      | b2 :: b3 :: b4 :: rest4 =>
        if (128 ≤ b2 && b2 ≤ 191) && (128 ≤ b3 && b3 ≤ 191) && (128 ≤ b4 && b4 ≤ 191) then
          let cp := (b1 - 240) * 262144 + (b2 - 128) * 4096 + (b3 - 128) * 64 + (b4 - 128)
          if 65536 ≤ cp && cp ≤ 1114111 then
            (utf8Decode rest4).map (fun t => cp :: t)
          else none
        else none
      | _ => none
    else none

/-- Pair consecutive bytes big-endian (chunks_exact 2 with from_be_bytes);
a trailing odd byte is dropped, as chunks_exact does. -/
def chunksBE : List Nat → List Nat
  | a :: b :: rest => (a * 256 + b) :: chunksBE rest
  | _ => []

/-- Pair consecutive bytes little-endian (chunks_exact 2 with from_le_bytes). -/
def chunksLE : List Nat → List Nat
  | a :: b :: rest => (b * 256 + a) :: chunksLE rest
  | _ => []

/-- UTF-16 decoding of a list of 16-bit units (String from_utf16):
surrogate pairs are combined, lone surrogates fail. -/
def utf16Decode : List Nat → Option (List Nat)
  | [] => some []
  | u :: rest =>
    if u < 55296 || 57344 ≤ u then (utf16Decode rest).map (fun t => u :: t)
    else if u ≤ 56319 then
      match rest with
      | u2 :: rest2 =>
        if 56320 ≤ u2 && u2 ≤ 57343 then
          (utf16Decode rest2).map
            (fun t => (65536 + (u - 55296) * 1024 + (u2 - 56320)) :: t)
        else none
      | [] => none
    else none

/-- Failure sentinel looked for in the standard decoding result. -/
def sentinelUnimplemented : List Nat := strCodes ("Unimplemented")

/-- Second failure sentinel looked for in the standard decoding result. -/
def sentinelIdentityH : List Nat := strCodes ("Identity-H")

/-- Rust str trim is_empty: true when every character is whitespace. -/
def trimIsEmpty (env : DecodeEnv) (s : List Nat) : Bool :=
  s.all env.isWs

/-- Acceptance rule of the fallback decoders: at least one
alphanumeric-or-whitespace character. -/
def acceptFallback (env : DecodeEnv) (s : List Nat) : Bool :=
  s.any (fun c => env.isAlnum c || env.isWs c)

/-- Robust PDF text decoder (decode_pdf_text_robust of src/lib/src/pdf.rs):
standard decode first, then strict UTF-8, UTF-16 BE, UTF-16 LE (both only
for even lengths of at least two bytes), Latin-1, and finally the empty
string. -/
def decode_pdf_text_robust (env : DecodeEnv) (encoding : Option (List Nat))
    (bytes : List Nat) : List Nat :=
  let decoded_text := env.stdDecode encoding bytes
  if containsSeq decoded_text sentinelUnimplemented
      || containsSeq decoded_text sentinelIdentityH
      || trimIsEmpty env decoded_text then
    let latin1Step : List Nat :=
      if acceptFallback env bytes then bytes else []
    let utf16LEStep : List Nat :=
      match utf16Decode (chunksLE bytes) with
      | some t => if acceptFallback env t then t else latin1Step
      | none => latin1Step
    let utf16BEStep : List Nat :=
      match utf16Decode (chunksBE bytes) with
      | some t => if acceptFallback env t then t else utf16LEStep
      | none => utf16LEStep
    let utf16Steps : List Nat :=
      if 2 ≤ bytes.length && bytes.length % 2 == 0 then utf16BEStep
      else latin1Step
    match utf8Decode bytes with
    | some t => if acceptFallback env t then t else utf16Steps
    | none => utf16Steps
  else decoded_text

/-- Modelled from the spec: core.rs is not under src, so ImageData is
taken from section 3 of the spec (an owned byte buffer with title, alt
text, type tag, alignment tag and optional width and height). -/
structure ImageData where
  bytes : List Nat
  title : List Nat
  alt : List Nat
  imageType : List Nat
  align : List Nat
  width : Option (List Nat)
  height : Option (List Nat)
deriving DecidableEq

-- Modelled from the spec: core.rs is not under src, so the Element
-- algebra is taken from section 3 of the spec and from its uses in
-- src/lib/src/pdf.rs and src/lib/src/text.rs.  ListItem and TableRow wrap
-- exactly one Element and one cell list respectively.
mutual
inductive Element where
  | text (text : List Nat) (size : Nat)
  | header (level : Nat) (text : List Nat)
  | paragraph (elements : List Element)
  | list (elements : List ListItem) (numbered : Bool)
  | table (headers : List ListItem) (rows : List TableRow)
  | hyperlink (title : List Nat) (url : List Nat) (alt : List Nat) (size : Nat)
  | image (data : ImageData)
inductive ListItem where
  | mk (element : Element)
inductive TableRow where
  | mk (cells : List ListItem)
end

/-- The single Element wrapped by a ListItem. -/
def ListItem.element : ListItem → Element
  | .mk e => e

/-- The cells of a TableRow. -/
def TableRow.cells : TableRow → List ListItem
  | .mk cs => cs

/-- Modelled from the spec: core.rs is not under src, so the Document
container is taken from section 3 of the spec (ordered element sequence
with independently replaceable page-header and page-footer bands). -/
structure Document where
  elements : List Element
  page_header : List Element
  page_footer : List Element

/-- Document construction (Document new): the parsed elements form the
body band, header and footer start empty. -/
def Document.new (elements : List Element) : Document :=
  ⟨elements, [], []⟩

/-- Content-stream operands, modelling the lopdf Object variants the
interpreter of src/lib/src/pdf.rs inspects.  The payload of a real
number is irrelevant to the interpreter (it never inspects it); it is
carried as an integer representative. -/
inductive PdfObj where
  | str (bytes : List Nat)
  | array (arr : List PdfObj)
  | integer (i : Int)
  | real (r : Int)
  | name (n : List Nat)
  | other

/-- One content-stream operation: operator plus operands. -/
structure Op where
  operator : List Nat
  operands : List PdfObj

/-- Parse errors of the interpreter (ParserError Common, raised for a
missing or non-name Tf operand). -/
inductive PdfError where
  | common
deriving DecidableEq

/-- State threaded through collect_text: the pending text buffer and the
document elements built so far. -/
structure TState where
  text : List Nat
  elements : List Element

/-- The Object String branch of collect_text (src/lib/src/pdf.rs lines
161 to 237): append the robustly decoded operand to the pending buffer;
when the operand is the one-byte marker with value 1, inspect the
trailing element: a trailing List receives the buffer as a new ListItem
and the buffer is cleared; a trailing Paragraph receives the buffer as a
Text child, the buffer is cleared and a new empty non-numbered List is
pushed; with no trailing element or any other trailing element a new
empty non-numbered List is pushed and the buffer is kept. -/
def strStep (env : DecodeEnv) (encoding : Option (List Nat)) (bytes : List Nat)
    (st : TState) : TState :=
  let decoded_text := decode_pdf_text_robust env encoding bytes
  let text := st.text ++ decoded_text
  if bytes = [1] then
    match st.elements.getLast? with
    | none => ⟨text, st.elements ++ [Element.list [] false]⟩
    | some el =>
      match el with
      | Element.list list_elements numbered =>
        ⟨[], st.elements.dropLast ++
          [Element.list (list_elements ++ [ListItem.mk (Element.text text 8)]) numbered]⟩
      | Element.paragraph paragraph_elements =>
        ⟨[], st.elements.dropLast ++
          [Element.paragraph (paragraph_elements ++ [Element.text text 8]),
           Element.list [] false]⟩
      | _ => ⟨text, st.elements ++ [Element.list [] false]⟩
  else ⟨text, st.elements⟩

-- The operand loop of collect_text (src/lib/src/pdf.rs lines 152 to
-- 251): string operands go through strStep, array operands are recursed
-- into and followed by one blank, integer operands below minus 100 append
-- one blank, every other operand is ignored.
mutual
def collect_one (env : DecodeEnv) (encoding : Option (List Nat)) :
    PdfObj → TState → TState
  | PdfObj.str bytes, st => strStep env encoding bytes st
  | PdfObj.array arr, st =>
    let st2 := collect_text env encoding arr st
    ⟨st2.text ++ [32], st2.elements⟩
  | PdfObj.integer i, st =>
    if i < -100 then ⟨st.text ++ [32], st.elements⟩ else st
  | _, st => st
def collect_text (env : DecodeEnv) (encoding : Option (List Nat)) :
    List PdfObj → TState → TState
  | [], st => st
  | operand :: rest, st =>
    collect_text env encoding rest (collect_one env encoding operand st)
end

/-- State of the operator interpretation loop of parse_object: pending
text, elements, and the current-encoding register. -/
structure OpState where
  text : List Nat
  elements : List Element
  currentEncoding : Option (List Nat)

/-- The Tm flush (src/lib/src/pdf.rs lines 270 to 303): the pending
buffer becomes a Text element; with no trailing element a new Paragraph
holding it is pushed, a trailing Paragraph receives it as a child, and
any other trailing element leaves it pushed standalone. -/
def tmFlush (text : List Nat) (elements : List Element) : List Element :=
  let text_element := Element.text text 8
  match elements.getLast? with
  | none => elements ++ [Element.paragraph [text_element]]
  | some el =>
    match el with
    | Element.paragraph paragraph_elements =>
      elements.dropLast ++ [Element.paragraph (paragraph_elements ++ [text_element])]
    | _ => elements ++ [text_element]

/-- Assoc-list lookup standing for the per-page BTreeMap from font
resource name to declared encoding. -/
def lookupEncoding (encodings : List (List Nat × List Nat)) (n : List Nat) :
    Option (List Nat) :=
  (encodings.find? (fun p => p.1 == n)).map (fun p => p.2)

/-- Code points of the operator string Tm. -/
def opTm : List Nat := [84, 109]

/-- Code points of the operator string Tf. -/
def opTf : List Nat := [84, 102]

/-- Code points of the operator string Tj. -/
def opTj : List Nat := [84, 106]

/-- Code points of the operator string TJ. -/
def opTJ : List Nat := [84, 74]

/-- Code points of the operator string ET. -/
def opET : List Nat := [69, 84]

/-- One step of the operator loop of parse_object (src/lib/src/pdf.rs
lines 267 to 322): Tm flushes the buffer, Tf sets the current encoding
from the font table (failing on a missing or non-name operand), Tj and
TJ collect text, ET forces a trailing newline on the buffer, every other
operator is ignored. -/
def applyOp (env : DecodeEnv) (encodings : List (List Nat × List Nat))
    (st : OpState) (op : Op) : Except PdfError OpState :=
  if op.operator = opTm then
    Except.ok ⟨[], tmFlush st.text st.elements, st.currentEncoding⟩
  else if op.operator = opTf then
    match op.operands.head? with
    | none => Except.error PdfError.common
    | some o =>
      match o with
      | PdfObj.name n => Except.ok ⟨st.text, st.elements, lookupEncoding encodings n⟩
      | _ => Except.error PdfError.common
  else if op.operator = opTj || op.operator = opTJ then
    let r := collect_text env st.currentEncoding op.operands ⟨st.text, st.elements⟩
    Except.ok ⟨r.text, r.elements, st.currentEncoding⟩
  else if op.operator = opET then
    if st.text.getLast? = some 10 then Except.ok st
    else Except.ok ⟨st.text ++ [10], st.elements, st.currentEncoding⟩
  else Except.ok st

/-- The end-of-page flush of parse_object (src/lib/src/pdf.rs lines 324
to 376): a non-empty buffer is appended to a trailing Paragraph as a
Text child, to a trailing List as a ListItem, is wrapped into a new
Paragraph when there is no trailing element, and is dropped for any
other trailing element. -/
def endFlush (text : List Nat) (elements : List Element) : List Element :=
  if text = [] then elements
  else
    let text_element := Element.text text 8
    match elements.getLast? with
    | none => elements ++ [Element.paragraph [text_element]]
    | some el =>
      match el with
      | Element.paragraph paragraph_elements =>
        elements.dropLast ++ [Element.paragraph (paragraph_elements ++ [text_element])]
      | Element.list list_elements numbered =>
        elements.dropLast ++
          [Element.list (list_elements ++ [ListItem.mk text_element]) numbered]
      | _ => elements

/-- The operator loop of parse_object: fold applyOp over the operation
list, propagating the first error as the question-mark operator does. -/
def runOps (env : DecodeEnv) (encodings : List (List Nat × List Nat)) :
    List Op → OpState → Except PdfError OpState
  | [], st => Except.ok st
  | op :: rest, st =>
    match applyOp env encodings st op with
    | Except.error e => Except.error e
    | Except.ok st2 => runOps env encodings rest st2

/-- Full parse_object run over the decoded content operations of a page
(src/lib/src/pdf.rs lines 146 to 379): fold the operator steps from an
empty buffer and unset encoding register, then apply the end-of-page
flush. -/
def parse_object (env : DecodeEnv) (encodings : List (List Nat × List Nat))
    (ops : List Op) (elements : List Element) : Except PdfError (List Element) :=
  match runOps env encodings ops ⟨[], elements, none⟩ with
  | Except.error e => Except.error e
  | Except.ok final => Except.ok (endFlush final.text final.elements)

/-- An XObject resource as the resource scan sees it: an optional
Subtype name and, when the object is a stream, its raw content bytes. -/
structure XObj where
  subtype : Option (List Nat)
  stream : Option (List Nat)
deriving DecidableEq

/-- One page of the PDF as the engine consumes it: the XObject resources
in dictionary order, the per-page font table, the decoded content
operations, and the number of content stream objects of the page (the
code runs parse_object once per content object, each run over the full
page content). -/
structure Page where
  xobjects : List (List Nat × XObj)
  fonts : List (List Nat × List Nat)
  content : List Op
  contentsCount : Nat

/-- The Image element synthesized for an image XObject: raw stream bytes,
title built from the resource name, fixed alt text, png type tag and
center alignment. -/
def pdfImage (name : List Nat) (content : List Nat) : ImageData :=
  ⟨content, strCodes ("PDF Image ") ++ name, strCodes ("PDF Image"),
    strCodes ("png"), strCodes ("center"), none, none⟩

/-- The resource scan of parse (src/lib/src/pdf.rs lines 81 to 113):
every XObject whose Subtype is the name Image and that is a stream
yields one Image element with the raw stream bytes, in dictionary
order. -/
def scanImages : List (List Nat × XObj) → List Element
  | [] => []
  | nx :: rest =>
    (match nx.2.subtype with
     | some st =>
       if st = strCodes ("Image") then
         match nx.2.stream with
         | some content => [Element.image (pdfImage nx.1 content)]
         | none => []
       else []
     | none => []) ++ scanImages rest

/-- Run parse_object the given number of times over the same full page
content, as the loop over get_page_contents does. -/
def runContents (env : DecodeEnv) (encodings : List (List Nat × List Nat))
    (content : List Op) : Nat → List Element → Except PdfError (List Element)
  | 0, els => Except.ok els
  | n + 1, els =>
    match parse_object env encodings content els with
    | Except.error e => Except.error e
    | Except.ok els2 => runContents env encodings content n els2

/-- Per-page work of parse (src/lib/src/pdf.rs lines 81 to 119): append
the scanned images, then run parse_object over each content object. -/
def parse_page (env : DecodeEnv) (els : List Element) (p : Page) :
    Except PdfError (List Element) :=
  runContents env p.fonts p.content p.contentsCount (els ++ scanImages p.xobjects)

/-- The page loop of parse: every page appends into one flat element
list, errors propagating. -/
def runPages (env : DecodeEnv) : List Page → List Element →
    Except PdfError (List Element)
  | [], els => Except.ok els
  | p :: rest, els =>
    match parse_page env els p with
    | Except.error e => Except.error e
    | Except.ok els2 => runPages env rest els2

/-- The parse entry point of the PDF transformer (src/lib/src/pdf.rs
lines 77 to 121): all pages append into one flat element list which
becomes the Document body. -/
def parse (env : DecodeEnv) (pages : List Page) : Except PdfError Document :=
  match runPages env pages [] with
  | Except.error e => Except.error e
  | Except.ok els => Except.ok (Document.new els)

/-- Select the first candidate decoding that exists and satisfies the
acceptance rule; the empty string when none qualifies.  This transcribes
the words of section 4.4 of the spec for comparison with the code. -/
def firstAcceptable (env : DecodeEnv) : List (Option (List Nat)) → List Nat
  | [] => []
  | none :: rest => firstAcceptable env rest
  | some t :: rest => if acceptFallback env t then t else firstAcceptable env rest

/-- The fallback chain exactly as section 4.4 of the spec words it:
standard decode unless empty, whitespace-only or sentinel-bearing, then
the first acceptable of strict UTF-8, UTF-16 BE and LE (these two only
for an even length of at least two bytes) and Latin-1, else empty. -/
def decode_chain_spec (env : DecodeEnv) (encoding : Option (List Nat))
    (bytes : List Nat) : List Nat :=
  let std := env.stdDecode encoding bytes
  if containsSeq std sentinelUnimplemented
      || containsSeq std sentinelIdentityH
      || trimIsEmpty env std then
    firstAcceptable env
      [utf8Decode bytes,
       if 2 ≤ bytes.length && bytes.length % 2 == 0 then
         utf16Decode (chunksBE bytes) else none,
       if 2 ≤ bytes.length && bytes.length % 2 == 0 then
         utf16Decode (chunksLE bytes) else none,
       some bytes]
  else std

/-- DecodeError raised by from_base64 on invalid base64 text. -/
inductive DecodeError where
  | invalid
deriving DecidableEq

/-- Character of the standard base64 alphabet for a six-bit value. -/
def encChar (n : Nat) : Nat :=
  if n < 26 then 65 + n
  else if n < 52 then 97 + (n - 26)
  else if n < 62 then 48 + (n - 52)
  else if n = 62 then 43
  else 47

/-- Six-bit value of a standard base64 alphabet character. -/
def decChar (c : Nat) : Option Nat :=
  if 65 ≤ c && c ≤ 90 then some (c - 65)
  else if 97 ≤ c && c ≤ 122 then some (c - 97 + 26)
  else if 48 ≤ c && c ≤ 57 then some (c - 48 + 52)
  else if c = 43 then some 62
  else if c = 47 then some 63
  else none

/-- Modelled from the spec: core.rs is not under src, so base64 encoding
(to_base64 of ImageData, section 4.2 of the spec: standard alphabet, no
line wrapping, deterministic, with padding) is transcribed here. -/
def b64Encode : List Nat → List Nat
  | [] => []
  | [b1] => [encChar (b1 / 4), encChar (b1 % 4 * 16), 61, 61]
  | [b1, b2] => [encChar (b1 / 4), encChar (b1 % 4 * 16 + b2 / 16),
                 encChar (b2 % 16 * 4), 61]
  | b1 :: b2 :: b3 :: rest =>
    encChar (b1 / 4) :: encChar (b1 % 4 * 16 + b2 / 16) ::
    encChar (b2 % 16 * 4 + b3 / 64) :: encChar (b3 % 64) :: b64Encode rest

/-- Modelled from the spec: core.rs is not under src, so base64 decoding
(the decoding half of from_base64, section 4.2 of the spec) is
transcribed here; invalid text yields none. -/
def b64Decode : List Nat → Option (List Nat)
  | [] => some []
  | c1 :: c2 :: c3 :: c4 :: rest =>
    match decChar c1, decChar c2 with
    | some s1, some s2 =>
      if c3 = 61 ∧ c4 = 61 ∧ rest = [] then some [s1 * 4 + s2 / 16]
      else if c4 = 61 ∧ rest = [] then
        match decChar c3 with
        | some s3 => some [s1 * 4 + s2 / 16, s2 % 16 * 16 + s3 / 4]
        | none => none
      else
        match decChar c3, decChar c4 with
        | some s3, some s4 =>
          (b64Decode rest).map
            (fun l => (s1 * 4 + s2 / 16) :: (s2 % 16 * 16 + s3 / 4) ::
                      (s3 % 4 * 64 + s4) :: l)
        | _, _ => none
    | _, _ => none
  | _ => none

/-- Modelled from the spec: to_base64 of the Image Codec (section 4.2),
the canonical base64 rendering of the raw image bytes. -/
def to_base64 (x : ImageData) : List Nat := b64Encode x.bytes

/-- Modelled from the spec: from_base64 of the Image Codec (section
4.2), building an ImageData from base64 text and the given metadata;
fails with DecodeError on invalid base64 text. -/
def from_base64 (s : List Nat) (title alt imageType align : List Nat)
    (width height : Option (List Nat)) : Except DecodeError ImageData :=
  match b64Decode s with
  | some bs => Except.ok ⟨bs, title, alt, imageType, align, width, height⟩
  | none => Except.error DecodeError.invalid

/-- Does the element render as a Text run (the generator's repeated
"if let Element Text" test)? -/
def isTextElement : Element → Bool
  | Element.text _ _ => true
  | _ => false

/-- State threaded through the plain-text generator of
src/lib/src/text.rs: the markdown accumulator, the numbered-list counter
and type stacks, the image side map and the image counter. -/
structure GenState where
  markdown : List Nat
  list_counters : List Nat
  list_types : List Bool
  images : List (List Nat × List Nat)
  image_num : Nat

/-- Decimal digit string of a counter value. -/
def decimalCodes (n : Nat) : List Nat := (Nat.toDigits 10 n).map Char.toNat

/-- Rust String len of a code point sequence: the number of bytes of its
UTF-8 form. -/
def utf8Width (c : Nat) : Nat :=
  if c < 128 then 1 else if c < 2048 then 2 else if c < 65536 then 3 else 4

/-- Rust String len of a code point sequence (sum of UTF-8 widths). -/
def rustStrLen (s : List Nat) : Nat := (s.map utf8Width).sum

/-- First pass of the table renderer over the headers (src/lib/src/text.rs
lines 160 to 164): the lengths of the Text headers, in order;
non-Text headers contribute nothing. -/
def headerTextLens (headers : List ListItem) : List Nat :=
  headers.filterMap
    (fun h => match h.element with
      | Element.text t _ => some (rustStrLen t)
      | _ => none)

/-- Width update pass over the cells of one row (src/lib/src/text.rs
lines 165 to 174): a Text cell at an index inside the width vector
raises that entry to its length; all other cells are skipped. -/
def rowPass : List Nat → Nat → List ListItem → List Nat
  | ml, _, [] => ml
  | ml, i, c :: cs =>
    match c.element with
    | Element.text t _ =>
      rowPass (if i < ml.length then ml.set i (Nat.max (ml.getD i 0) (rustStrLen t))
               else ml) (i + 1) cs
    | _ => rowPass ml (i + 1) cs

/-- The completed width vector of a table: header lengths raised by every
row. -/
def tableWidths (headers : List ListItem) (rows : List TableRow) : List Nat :=
  rows.foldl (fun ml r => rowPass ml 0 r.cells) (headerTextLens headers)

/-- Header rendering loop (src/lib/src/text.rs lines 176 to 184): a Text
header reads the width vector at its enumeration index (none models the
out-of-bounds panic) and pads with the checked difference (none models
the usize underflow panic); non-Text headers are skipped. -/
def renderHeaderCells (ml : List Nat) : Nat → List ListItem → List Nat →
    Option (List Nat)
  | _, [], md => some md
  | i, h :: hs, md =>
    match h.element with
    | Element.text t _ =>
      match ml.get? i with
      | none => none
      | some m =>
        if rustStrLen t ≤ m then
          renderHeaderCells ml (i + 1) hs
            (md ++ [124, 32] ++ t ++ List.replicate (m - rustStrLen t) 32 ++ [32])
        else none
    | _ => renderHeaderCells ml (i + 1) hs md

/-- Separator row (src/lib/src/text.rs lines 187 to 191): one bar and
width plus two dashes per width entry. -/
def renderSeparator (ml : List Nat) : List Nat :=
  ml.foldl (fun acc m => acc ++ [124] ++ List.replicate (m + 2) 45) []

/-- Cell rendering loop of one row (src/lib/src/text.rs lines 194 to
202): a Text cell reads the width vector at its enumeration index with
no bounds check (none models the out-of-bounds panic) and pads with the
checked difference; non-Text cells are skipped. -/
def renderRowCells (ml : List Nat) : Nat → List ListItem → List Nat →
    Option (List Nat)
  | _, [], md => some md
  | i, c :: cs, md =>
    match c.element with
    | Element.text t _ =>
      match ml.get? i with
      | none => none
      | some m =>
        if rustStrLen t ≤ m then
          renderRowCells ml (i + 1) cs
            (md ++ [124, 32] ++ t ++ List.replicate (m - rustStrLen t) 32 ++ [32])
        else none
    | _ => renderRowCells ml (i + 1) cs md

/-- Row loop (src/lib/src/text.rs lines 193 to 204): each row renders
its cells and closes with a bar and newline. -/
def renderRows (ml : List Nat) : List TableRow → List Nat → Option (List Nat)
  | [], md => some md
  | r :: rs, md =>
    match renderRowCells ml 0 r.cells md with
    | none => none
    | some md2 => renderRows ml rs (md2 ++ [124, 10])

/-- The Table branch of generate_element (src/lib/src/text.rs lines 157
to 206): widths, header row, separator row, data rows, final newline;
none models a panic. -/
def renderTable (headers : List ListItem) (rows : List TableRow)
    (md : List Nat) : Option (List Nat) :=
  let ml := tableWidths headers rows
  match renderHeaderCells ml 0 headers md with
  | none => none
  | some md1 =>
    match renderRows ml rows (md1 ++ [124, 10] ++ renderSeparator ml ++ [124, 10]) with
    | none => none
    | some md4 => some (md4 ++ [10])

-- The generator of src/lib/src/text.rs lines 42 to 209 (generate_element
-- and generate_list_item, mutually recursive with their loops over child
-- lists); none models a panic of the Rust code (an out-of-bounds or
-- underflowing table width access, or an unwrap of an empty list stack).
mutual
def generate_element (e : Element) (list_depth : Nat) (st : GenState) :
    Option GenState :=
  match e with
  | Element.header _ t =>
    some { st with markdown := st.markdown ++ t ++ [10, 10] }
  | Element.paragraph els =>
    match generate_elements els list_depth st with
    | none => none
    | some st2 => some { st2 with markdown := st2.markdown ++ [10, 10] }
  | Element.list lis numbered =>
    let st1 := { st with list_counters := st.list_counters ++ [0],
                         list_types := st.list_types ++ [numbered] }
    match generate_list_items lis (list_depth + 1) st1 with
    | none => none
    | some st2 =>
      let st3 := { st2 with list_counters := st2.list_counters.dropLast,
                            list_types := st2.list_types.dropLast }
      if st3.list_counters = [] then
        some { st3 with markdown := st3.markdown ++ [10] }
      else some st3
  | Element.text t _ =>
    if t.getLast? = some 32 then some { st with markdown := st.markdown ++ t }
    else some { st with markdown := st.markdown ++ t ++ [32] }
  | Element.hyperlink title url alt _ =>
    if url = alt then some { st with markdown := st.markdown ++ url }
    else
      some { st with markdown := st.markdown ++ [91] ++ title ++ [93, 40] ++
               url ++ [32, 34] ++ alt ++ [34, 41] }
  | Element.image data =>
    let image_path := strCodes ("image") ++ decimalCodes st.image_num ++
      strCodes (".png")
    some { st with
      markdown := st.markdown ++ [33, 91] ++ data.alt ++ [93, 40] ++
        image_path ++ [32, 34] ++ data.title ++ [34, 41],
      images := st.images ++ [(image_path, data.bytes)],
      image_num := st.image_num + 1 }
  | Element.table headers rows =>
    match renderTable headers rows st.markdown with
    | none => none
    | some md => some { st with markdown := md }

def generate_elements (es : List Element) (list_depth : Nat) (st : GenState) :
    Option GenState :=
  match es with
  | [] => some st
  | e :: rest =>
    match generate_element e list_depth st with
    | none => none
    | some st2 => generate_elements rest list_depth st2

def generate_list_item (li : ListItem) (list_depth : Nat) (st : GenState) :
    Option GenState :=
  match li with
  | ListItem.mk inner =>
    match st.list_types.getLast? with
    | none => none
    | some numbered =>
      let isTextItem : Bool := isTextElement inner
      let pfxState : Option (List Nat × List Nat) :=
        if numbered then
          match st.list_counters.getLast? with
          | none => none
          | some counter =>
            let counter2 := if isTextItem then counter + 1 else counter
            some (decimalCodes counter2 ++ [46, 32],
                  if isTextItem then st.list_counters.dropLast ++ [counter2]
                  else st.list_counters)
        else some ([45, 32], st.list_counters)
      match pfxState with
      | none => none
      | some (pfx, counters2) =>
        let indent := List.replicate ((list_depth - 1) * 2) 32
        let md1 := st.markdown ++ indent ++ (if isTextItem then pfx else [])
        match generate_element inner list_depth
            { st with markdown := md1, list_counters := counters2 } with
        | none => none
        | some st2 =>
          if isTextItem then some { st2 with markdown := st2.markdown ++ [10] }
          else some st2

def generate_list_items (lis : List ListItem) (list_depth : Nat)
    (st : GenState) : Option GenState :=
  match lis with
  | [] => some st
  | li :: rest =>
    match generate_list_item li list_depth st with
    | none => none
    | some st2 => generate_list_items rest list_depth st2
end

/-- The generate entry point of the plain-text transformer
(src/lib/src/text.rs lines 34 to 229).  Modelled from the spec for the
band walk (core.rs is not under src): the bands of the Document are
visited in order and every element generated into one markdown
accumulator; none models a panic. -/
def generate (doc : Document) : Option GenState :=
  generate_elements (doc.page_header ++ doc.elements ++ doc.page_footer) 0
    ⟨[], [], [], [], 0⟩

/-- Does the ListItem wrap a Text element? -/
def isTextItem (li : ListItem) : Bool :=
  isTextElement li.element

/-- No row of the table is wider than its header list. -/
def rowsFit (headers : List ListItem) (rows : List TableRow) : Bool :=
  rows.all (fun r => r.cells.length ≤ headers.length)

-- Well-shaped tables: every header wraps a Text element and no row is
-- wider than the header list; checked recursively through the containers
-- the generator recurses into.
mutual
def tablesOk : Element → Bool
  | Element.table headers rows =>
    headers.all isTextItem && rowsFit headers rows
  | Element.paragraph els => tablesOkList els
  | Element.list lis _ => tablesOkItems lis
  | _ => true
def tablesOkList : List Element → Bool
  | [] => true
  | e :: rest => tablesOk e && tablesOkList rest
def tablesOkItems : List ListItem → Bool
  | [] => true
  | ListItem.mk inner :: rest => tablesOk inner && tablesOkItems rest
end

/-- Concrete decoding environment used by the witnesses: the standard
decoder always fails to the empty string, and the character classes are
the ASCII ones. -/
def asciiEnv : DecodeEnv :=
  ⟨fun _ _ => [],
   fun c => (48 ≤ c && c ≤ 57) || (65 ≤ c && c ≤ 90) || (97 ≤ c && c ≤ 122),
   fun c => c = 32 || c = 9 || c = 10 || c = 13⟩

/-- Counts the Image elements of an element list. -/
def imageCount (els : List Element) : Nat :=
  els.countP (fun e => match e with
    | Element.image _ => true
    | _ => false)

/-- Is this XObject entry an image entry (Subtype the name Image)? -/
def isImageEntry (nx : List Nat × XObj) : Bool :=
  nx.2.subtype == some (strCodes ("Image"))

/-- The element list opens with the given image and holds no further
Image element: the shape the interpreter preserves for a page whose
resource scan produced exactly that one image. -/
def imagePrefix (d : ImageData) (els : List Element) : Prop :=
  ∃ tail, els = Element.image d :: tail ∧ imageCount tail = 0

/-- The one-page list scenario of claim C1: show Item A, the one-byte
marker 1, a text-matrix reset, show Item B, the marker again. -/
def listPage (bytesA bytesB : List Nat) : Page :=
  ⟨[], [],
   [⟨opTj, [PdfObj.str bytesA]⟩,
    ⟨opTj, [PdfObj.str [1]]⟩,
    ⟨opTm, []⟩,
    ⟨opTj, [PdfObj.str bytesB]⟩,
    ⟨opTj, [PdfObj.str [1]]⟩], 1⟩

/-- The one-page paragraph scenario of claim C2: set font, text matrix,
show abc, text matrix, show def. -/
def paragraphPage (fname ename bytesA bytesB : List Nat) : Page :=
  ⟨[], [(fname, ename)],
   [⟨opTf, [PdfObj.name fname]⟩,
    ⟨opTm, []⟩,
    ⟨opTj, [PdfObj.str bytesA]⟩,
    ⟨opTm, []⟩,
    ⟨opTj, [PdfObj.str bytesB]⟩], 1⟩

/-! Theorems.  Helper lemmas come first, then one theorem per claim with
its witness or counterexample. -/

theorem decChar_encChar_all : ∀ n : Nat, n < 64 → decChar (encChar n) = some n := by
  decide

theorem encChar_ne_61_all : ∀ n : Nat, n < 64 → encChar n ≠ 61 := by
  decide

theorem b64_roundtrip : ∀ l : List Nat, (∀ b ∈ l, b < 256) →
    b64Decode (b64Encode l) = some l
  | [], _ => rfl
  | [b1], h => by
    have hb1 : b1 < 256 := h b1 (by simp)
    have h1 : decChar (encChar (b1 / 4)) = some (b1 / 4) :=
      decChar_encChar_all _ (by omega)
    have h2 : decChar (encChar (b1 % 4 * 16)) = some (b1 % 4 * 16) :=
      decChar_encChar_all _ (by omega)
    simp only [b64Encode, b64Decode, h1, h2]
    simp only [and_self, and_true, true_and, reduceIte]
    simp only [Option.some.injEq, List.cons.injEq, and_true]
    omega
  | [b1, b2], h => by
    have hb1 : b1 < 256 := h b1 (by simp)
    have hb2 : b2 < 256 := h b2 (by simp)
    have h1 : decChar (encChar (b1 / 4)) = some (b1 / 4) :=
      decChar_encChar_all _ (by omega)
    have h2 : decChar (encChar (b1 % 4 * 16 + b2 / 16)) =
        some (b1 % 4 * 16 + b2 / 16) := decChar_encChar_all _ (by omega)
    have h3 : decChar (encChar (b2 % 16 * 4)) = some (b2 % 16 * 4) :=
      decChar_encChar_all _ (by omega)
    have hne : encChar (b2 % 16 * 4) ≠ 61 := encChar_ne_61_all _ (by omega)
    simp only [b64Encode, b64Decode, h1, h2, h3]
    rw [if_neg (by simp [hne])]
    simp only [and_self, and_true, true_and, reduceIte]
    simp only [Option.some.injEq, List.cons.injEq, and_true]
    omega
  | b1 :: b2 :: b3 :: rest, h => by
    have hb1 : b1 < 256 := h b1 (by simp)
    have hb2 : b2 < 256 := h b2 (by simp)
    have hb3 : b3 < 256 := h b3 (by simp)
    have hrest : ∀ b ∈ rest, b < 256 := fun b hb => h b (by simp [hb])
    have h1 : decChar (encChar (b1 / 4)) = some (b1 / 4) :=
      decChar_encChar_all _ (by omega)
    have h2 : decChar (encChar (b1 % 4 * 16 + b2 / 16)) =
        some (b1 % 4 * 16 + b2 / 16) := decChar_encChar_all _ (by omega)
    have h3 : decChar (encChar (b2 % 16 * 4 + b3 / 64)) =
        some (b2 % 16 * 4 + b3 / 64) := decChar_encChar_all _ (by omega)
    have h4 : decChar (encChar (b3 % 64)) = some (b3 % 64) :=
      decChar_encChar_all _ (by omega)
    have hne3 : encChar (b2 % 16 * 4 + b3 / 64) ≠ 61 := encChar_ne_61_all _ (by omega)
    have hne4 : encChar (b3 % 64) ≠ 61 := encChar_ne_61_all _ (by omega)
    simp only [b64Encode, b64Decode, h1, h2, h3, h4]
    rw [if_neg (by simp [hne3]), if_neg (by simp [hne4])]
    rw [b64_roundtrip rest hrest]
    simp only [Option.map_some', Option.some.injEq, List.cons.injEq]
    exact ⟨by omega, by omega, by omega, trivial⟩

/-- Claim C8: for every valid ImageData (all byte values below 256) and
any metadata, decoding the base64 rendering of its bytes restores the
byte buffer exactly: from_base64 (to_base64 x) has the bytes of x. -/
theorem c8_base64_roundtrip (x : ImageData) (hx : ∀ b ∈ x.bytes, b < 256)
    (title alt imageType align : List Nat) (width height : Option (List Nat)) :
    (from_base64 (to_base64 x) title alt imageType align width height).map
      ImageData.bytes = Except.ok x.bytes := by
  unfold from_base64 to_base64
  rw [b64_roundtrip x.bytes hx]
  rfl

/-- Witness for C8 at a concrete four-byte image. -/
theorem c8_base64_roundtrip_witness :
    (from_base64 (to_base64 ⟨[137, 80, 78, 71], [], [], [], [], none, none⟩)
      [] [] [] [] none none).map ImageData.bytes = Except.ok [137, 80, 78, 71] :=
  c8_base64_roundtrip ⟨[137, 80, 78, 71], [], [], [], [], none, none⟩
    (by decide) [] [] [] [] none none

theorem decode_eq_chain_spec (env : DecodeEnv) (encoding : Option (List Nat))
    (bytes : List Nat) :
    decode_pdf_text_robust env encoding bytes = decode_chain_spec env encoding bytes := by
  simp only [decode_pdf_text_robust, decode_chain_spec]
  by_cases hbad : (containsSeq (env.stdDecode encoding bytes) sentinelUnimplemented
      || containsSeq (env.stdDecode encoding bytes) sentinelIdentityH
      || trimIsEmpty env (env.stdDecode encoding bytes)) = true
  · rw [if_pos hbad, if_pos hbad]
    by_cases he : (2 ≤ bytes.length && bytes.length % 2 == 0) = true
    · cases hu : utf8Decode bytes <;>
        cases hbe : utf16Decode (chunksBE bytes) <;>
          cases hle : utf16Decode (chunksLE bytes) <;>
            simp only [hu, hbe, hle, if_pos he, firstAcceptable]
    · cases hu : utf8Decode bytes <;>
        simp only [hu, if_neg he, firstAcceptable]
  · rw [if_neg hbad, if_neg hbad]

theorem firstAcceptable_mem (env : DecodeEnv) :
    ∀ cands : List (Option (List Nat)),
      some (firstAcceptable env cands) ∈ cands ∨ firstAcceptable env cands = []
  | [] => Or.inr rfl
  | none :: rest => by
    rcases firstAcceptable_mem env rest with h | h
    · exact Or.inl (by simp [firstAcceptable, h, List.mem_cons])
    · rw [firstAcceptable, h]
      exact Or.inr rfl
  | some t :: rest => by
    by_cases ha : acceptFallback env t = true
    · exact Or.inl (by simp [firstAcceptable, ha])
    · rcases firstAcceptable_mem env rest with h | h
      · refine Or.inl ?_
        rw [firstAcceptable, if_neg ha]
        exact List.mem_cons_of_mem _ h
      · rw [firstAcceptable, if_neg ha, h]
        exact Or.inr rfl

/-- Claim C6: the robust decoder realises the fallback chain exactly as
the spec words it: the standard decode is returned unless empty,
whitespace-only or sentinel-bearing, otherwise the first acceptable of
strict UTF-8, UTF-16 BE and UTF-16 LE (both only for an even input
length of at least two) and Latin-1 wins, and the empty string is
returned when none qualifies. -/
theorem c6_fallback_chain (env : DecodeEnv) (encoding : Option (List Nat))
    (bytes : List Nat) :
    decode_pdf_text_robust env encoding bytes =
      decode_chain_spec env encoding bytes :=
  decode_eq_chain_spec env encoding bytes

/-- Claim C5: the robust decoder is total: for every byte sequence and
declared encoding its result is one of the candidate decodings (standard,
strict UTF-8, UTF-16 BE or LE, Latin-1) or the empty string; and every
Show-text operator step succeeds, so no text-decode failure propagates
as an error out of PDF parsing. -/
theorem c5_decoder_total (env : DecodeEnv) :
    (∀ encoding bytes,
      decode_pdf_text_robust env encoding bytes = env.stdDecode encoding bytes ∨
      utf8Decode bytes = some (decode_pdf_text_robust env encoding bytes) ∨
      utf16Decode (chunksBE bytes) = some (decode_pdf_text_robust env encoding bytes) ∨
      utf16Decode (chunksLE bytes) = some (decode_pdf_text_robust env encoding bytes) ∨
      decode_pdf_text_robust env encoding bytes = bytes ∨
      decode_pdf_text_robust env encoding bytes = []) ∧
    (∀ encodings st op, op.operator = opTj ∨ op.operator = opTJ →
      applyOp env encodings st op = Except.ok
        ⟨(collect_text env st.currentEncoding op.operands ⟨st.text, st.elements⟩).text,
         (collect_text env st.currentEncoding op.operands ⟨st.text, st.elements⟩).elements,
         st.currentEncoding⟩) := by
  constructor
  · intro encoding bytes
    rw [decode_eq_chain_spec]
    simp only [decode_chain_spec]
    by_cases hbad : (containsSeq (env.stdDecode encoding bytes) sentinelUnimplemented
        || containsSeq (env.stdDecode encoding bytes) sentinelIdentityH
        || trimIsEmpty env (env.stdDecode encoding bytes)) = true
    · rw [if_pos hbad]
      have hmem := firstAcceptable_mem env
          [utf8Decode bytes,
           if 2 ≤ bytes.length && bytes.length % 2 == 0 then
             utf16Decode (chunksBE bytes) else none,
           if 2 ≤ bytes.length && bytes.length % 2 == 0 then
             utf16Decode (chunksLE bytes) else none,
           some bytes]
      set R := firstAcceptable env
          [utf8Decode bytes,
           if 2 ≤ bytes.length && bytes.length % 2 == 0 then
             utf16Decode (chunksBE bytes) else none,
           if 2 ≤ bytes.length && bytes.length % 2 == 0 then
             utf16Decode (chunksLE bytes) else none,
           some bytes] with hR
      rcases hmem with h | h
      · simp only [List.mem_cons, List.not_mem_nil, or_false] at h
        rcases h with h | h | h | h
        · exact Or.inr (Or.inl h.symm)
        · by_cases he : (2 ≤ bytes.length && bytes.length % 2 == 0) = true
          · rw [if_pos he] at h
            exact Or.inr (Or.inr (Or.inl h.symm))
          · rw [if_neg he] at h
            simp at h
        · by_cases he : (2 ≤ bytes.length && bytes.length % 2 == 0) = true
          · rw [if_pos he] at h
            exact Or.inr (Or.inr (Or.inr (Or.inl h.symm)))
          · rw [if_neg he] at h
            simp at h
        · exact Or.inr (Or.inr (Or.inr (Or.inr (Or.inl (by injection h)))))
      · exact Or.inr (Or.inr (Or.inr (Or.inr (Or.inr h))))
    · rw [if_neg hbad]
      exact Or.inl rfl
  · intro encodings st op hop
    rcases hop with h | h <;>
      simp [applyOp, h, opTm, opTf, opTj, opTJ]

/-- Witness for C5: a Show-text step at a concrete operand list succeeds. -/
theorem c5_decoder_total_witness :
    applyOp asciiEnv [] ⟨[], [], none⟩ ⟨opTj, [PdfObj.str [97]]⟩ = Except.ok
      ⟨(collect_text asciiEnv none [PdfObj.str [97]] ⟨[], []⟩).text,
       (collect_text asciiEnv none [PdfObj.str [97]] ⟨[], []⟩).elements, none⟩ :=
  (c5_decoder_total asciiEnv).2 [] ⟨[], [], none⟩ ⟨opTj, [PdfObj.str [97]]⟩
    (Or.inl rfl)

/-- Claim C9 amended: while collecting Show-text operands, an Integer
spacing operand strictly below minus 100 appends exactly one blank to
the pending buffer, any other Integer leaves the state unchanged, and a
Real operand is ignored whatever its value. -/
theorem c9_spacing_amended (env : DecodeEnv) (enc : Option (List Nat))
    (st : TState) (i r : Int) :
    (i < -100 → collect_text env enc [PdfObj.integer i] st =
      ⟨st.text ++ [32], st.elements⟩) ∧
    (¬ i < -100 → collect_text env enc [PdfObj.integer i] st = st) ∧
    collect_text env enc [PdfObj.real r] st = st := by
  refine ⟨fun h => ?_, fun h => ?_, ?_⟩
  · simp [collect_text, collect_one, h]
  · simp [collect_text, collect_one, h]
  · simp [collect_text, collect_one]

/-- Witness for C9: an integer spacing of minus 200 appends one blank. -/
theorem c9_spacing_amended_witness :
    collect_text asciiEnv none [PdfObj.integer (-200)] ⟨[], []⟩ = ⟨[32], []⟩ :=
  (c9_spacing_amended asciiEnv none ⟨[], []⟩ (-200) 0).1 (by norm_num)

/-- Counterexample for C9 as stated: a Real spacing operand of minus 200
units appends no blank, where the claim requires one. -/
theorem c9_spacing_counterexample :
    collect_text asciiEnv none [PdfObj.real (-200)] ⟨[], []⟩ = ⟨[], []⟩ ∧
    (⟨[], []⟩ : TState) ≠ ⟨[32], []⟩ := by
  refine ⟨by simp [collect_text, collect_one], by simp⟩

/-- Claim C1 amended: in the list scenario, a one-byte marker operand
with value 1 seen with no trailing element opens a new empty
non-numbered List and keeps the pending buffer; the buffer is attached
as a ListItem only when the trailing element is already a List.  So the
sequence ShowText A, marker, SetTextMatrix, ShowText B, marker, with the
marker decoding to nothing and B non-empty, parses to an empty List, a
standalone Text A, and a List holding the single ListItem B (the end of
page flush attaches B to the trailing empty List). -/
theorem c1_list_amended (env : DecodeEnv) (bytesA bytesB a b : List Nat)
    (hA : decode_pdf_text_robust env none bytesA = a) (hA1 : bytesA ≠ [1])
    (hB : decode_pdf_text_robust env none bytesB = b) (hB1 : bytesB ≠ [1])
    (hM : decode_pdf_text_robust env none [1] = []) (hb0 : b ≠ []) :
    parse env [listPage bytesA bytesB] = Except.ok (Document.new
      [Element.list [] false, Element.text a 8,
       Element.list [ListItem.mk (Element.text b 8)] false]) := by
  simp [parse, runPages, parse_page, scanImages, runContents, parse_object,
        runOps, applyOp, opTm, opTf, opTj, opTJ, opET, listPage,
        collect_text, collect_one, strStep, hA, hB, hM, hA1, hB1, hb0,
        tmFlush, endFlush, Document.new]

/-- Witness for C1 amended at the concrete bytes of Item A and Item B
under the ASCII environment. -/
theorem c1_list_amended_witness :
    parse asciiEnv [listPage [73, 116, 101, 109, 32, 65] [73, 116, 101, 109, 32, 66]] =
      Except.ok (Document.new
        [Element.list [] false, Element.text [73, 116, 101, 109, 32, 65] 8,
         Element.list [ListItem.mk (Element.text [73, 116, 101, 109, 32, 66] 8)] false]) :=
  c1_list_amended asciiEnv _ _ _ _ rfl (by decide) rfl (by decide) rfl (by decide)

/-- Counterexample for C1 as stated: the scenario yields three elements,
with Item A left as a standalone Text and the first List empty, not one
List holding the two ListItems as the claim requires. -/
theorem c1_list_counterexample :
    parse asciiEnv [listPage [73, 116, 101, 109, 32, 65] [73, 116, 101, 109, 32, 66]] =
      Except.ok (Document.new
        [Element.list [] false, Element.text [73, 116, 101, 109, 32, 65] 8,
         Element.list [ListItem.mk (Element.text [73, 116, 101, 109, 32, 66] 8)] false]) ∧
    Document.new
        [Element.list [] false, Element.text [73, 116, 101, 109, 32, 65] 8,
         Element.list [ListItem.mk (Element.text [73, 116, 101, 109, 32, 66] 8)] false] ≠
      Document.new
        [Element.list [ListItem.mk (Element.text [73, 116, 101, 109, 32, 65] 8),
                       ListItem.mk (Element.text [73, 116, 101, 109, 32, 66] 8)] false] := by
  refine ⟨rfl, by simp [Document.new]⟩

/-- Claim C2 amended: the sequence SetFont, SetTextMatrix, ShowText abc,
SetTextMatrix, ShowText def yields one Document with a single Paragraph
holding three Text children: an empty one (the first text-matrix flush
of the still empty buffer), then abc, then def. -/
theorem c2_paragraph_amended (env : DecodeEnv)
    (fname ename bytesA bytesB a b : List Nat)
    (hA : decode_pdf_text_robust env (some ename) bytesA = a) (hA1 : bytesA ≠ [1])
    (hB : decode_pdf_text_robust env (some ename) bytesB = b) (hB1 : bytesB ≠ [1])
    (hb0 : b ≠ []) :
    parse env [paragraphPage fname ename bytesA bytesB] = Except.ok (Document.new
      [Element.paragraph [Element.text [] 8, Element.text a 8, Element.text b 8]]) := by
  simp [parse, runPages, parse_page, scanImages, runContents, parse_object,
        runOps, applyOp, opTm, opTf, opTj, opTJ, opET, paragraphPage,
        lookupEncoding, List.find?, collect_text, collect_one, strStep,
        hA, hB, hA1, hB1, hb0, tmFlush, endFlush, Document.new]

/-- Witness for C2 amended at the concrete bytes of abc and def under
the ASCII environment. -/
theorem c2_paragraph_amended_witness :
    parse asciiEnv [paragraphPage [70, 49] [87, 65] [97, 98, 99] [100, 101, 102]] =
      Except.ok (Document.new
        [Element.paragraph [Element.text [] 8, Element.text [97, 98, 99] 8,
                            Element.text [100, 101, 102] 8]]) :=
  c2_paragraph_amended asciiEnv _ _ _ _ _ _ rfl (by decide) rfl (by decide)
    (by decide)

/-- Counterexample for C2 as stated: the Paragraph holds three Text
children (a leading empty one), not exactly the two abc and def the
claim requires. -/
theorem c2_paragraph_counterexample :
    parse asciiEnv [paragraphPage [70, 49] [87, 65] [97, 98, 99] [100, 101, 102]] =
      Except.ok (Document.new
        [Element.paragraph [Element.text [] 8, Element.text [97, 98, 99] 8,
                            Element.text [100, 101, 102] 8]]) ∧
    Document.new
        [Element.paragraph [Element.text [] 8, Element.text [97, 98, 99] 8,
                            Element.text [100, 101, 102] 8]] ≠
      Document.new
        [Element.paragraph [Element.text [97, 98, 99] 8,
                            Element.text [100, 101, 102] 8]] := by
  refine ⟨rfl, by simp [Document.new]⟩

/-- Claim C3 amended: the Tm operator flushes the pending buffer as a
Text element and clears the buffer; the Text is appended as a child of a
trailing Paragraph, wrapped into a new Paragraph when there is no
trailing element, and pushed standalone (not wrapped in a Paragraph)
after any other trailing element. -/
theorem c3_tm_amended (env : DecodeEnv) (encodings : List (List Nat × List Nat))
    (operands : List PdfObj) (st : OpState) :
    (applyOp env encodings st ⟨opTm, operands⟩ =
      Except.ok ⟨[], tmFlush st.text st.elements, st.currentEncoding⟩) ∧
    (st.elements = [] →
      tmFlush st.text st.elements = [Element.paragraph [Element.text st.text 8]]) ∧
    (∀ init pes, st.elements = init ++ [Element.paragraph pes] →
      tmFlush st.text st.elements =
        init ++ [Element.paragraph (pes ++ [Element.text st.text 8])]) ∧
    (∀ l, st.elements.getLast? = some l → (∀ pes, l ≠ Element.paragraph pes) →
      tmFlush st.text st.elements = st.elements ++ [Element.text st.text 8]) := by
  refine ⟨rfl, fun h => ?_, fun init pes h => ?_, fun l hl hnp => ?_⟩
  · simp [tmFlush, h]
  · simp [tmFlush, h]
  · simp only [tmFlush]
    rw [hl]
    cases l with
    | paragraph pes => exact absurd rfl (hnp pes)
    | text t sz => rfl
    | header lv t => rfl
    | list les nb => rfl
    | table hs rs => rfl
    | hyperlink a b c d => rfl
    | image d => rfl

/-- Witness for C3 amended: with a trailing List, the Tm flush pushes
the Text standalone. -/
theorem c3_tm_amended_witness :
    tmFlush [120] [Element.list [] false] =
      [Element.list [] false, Element.text [120] 8] :=
  (c3_tm_amended asciiEnv [] []
      ⟨[120], [Element.list [] false], none⟩).2.2.2
    (Element.list [] false) rfl (fun pes h => by cases h)

/-- Counterexample for C3 as stated: with a trailing List the flushed
Text is pushed standalone, not wrapped into a new Paragraph as the claim
requires. -/
theorem c3_tm_counterexample :
    tmFlush [120] [Element.list [] false] =
      [Element.list [] false, Element.text [120] 8] ∧
    ([Element.list [] false, Element.text [120] 8] : List Element) ≠
      [Element.list [] false, Element.paragraph [Element.text [120] 8]] := by
  refine ⟨rfl, by simp⟩

/-- Claim C4 amended: at end of page a non-empty pending buffer is
appended to a trailing Paragraph as a Text child, to a trailing List as
a ListItem, is wrapped into a new Paragraph when there is no trailing
element, and is discarded when the trailing element is neither a
Paragraph nor a List. -/
theorem c4_endflush_amended (text : List Nat) (els : List Element)
    (h : text ≠ []) :
    (els = [] → endFlush text els = [Element.paragraph [Element.text text 8]]) ∧
    (∀ init pes, els = init ++ [Element.paragraph pes] →
      endFlush text els = init ++ [Element.paragraph (pes ++ [Element.text text 8])]) ∧
    (∀ init les nb, els = init ++ [Element.list les nb] →
      endFlush text els =
        init ++ [Element.list (les ++ [ListItem.mk (Element.text text 8)]) nb]) ∧
    (∀ l, els.getLast? = some l → (∀ pes, l ≠ Element.paragraph pes) →
      (∀ les nb, l ≠ Element.list les nb) → endFlush text els = els) := by
  refine ⟨fun he => ?_, fun init pes he => ?_, fun init les nb he => ?_,
    fun l hl hnp hnl => ?_⟩
  · simp [endFlush, h, he]
  · simp [endFlush, h, he]
  · simp [endFlush, h, he]
  · simp only [endFlush]
    rw [if_neg h, hl]
    cases l with
    | paragraph pes => exact absurd rfl (hnp pes)
    | list les nb => exact absurd rfl (hnl les nb)
    | text t sz => rfl
    | header lv t => rfl
    | table hs rs => rfl
    | hyperlink a b c d => rfl
    | image d => rfl

/-- Witness for C4 amended: a non-empty buffer after a trailing bare
Text element is discarded. -/
theorem c4_endflush_amended_witness :
    endFlush [120] [Element.text [116] 8] = [Element.text [116] 8] :=
  (c4_endflush_amended [120] [Element.text [116] 8] (by simp)).2.2.2
    (Element.text [116] 8) rfl (fun pes h => by cases h) (fun les nb h => by cases h)

/-- Counterexample for C4 as stated: with a trailing bare Text element
the non-empty buffer is discarded, not emitted standalone as the claim
requires. -/
theorem c4_endflush_counterexample :
    endFlush [120] [Element.text [116] 8] = [Element.text [116] 8] ∧
    ([Element.text [116] 8] : List Element) ≠
      [Element.text [116] 8, Element.text [120] 8] := by
  refine ⟨rfl, by simp⟩

theorem imageCount_append (a b : List Element) :
    imageCount (a ++ b) = imageCount a + imageCount b :=
  List.countP_append _ _ _

theorem imagePrefix_append {d : ImageData} {els : List Element}
    (xs : List Element) (hx : imageCount xs = 0) (h : imagePrefix d els) :
    imagePrefix d (els ++ xs) := by
  obtain ⟨tail, rfl, hc⟩ := h
  exact ⟨tail ++ xs, by simp, by simp [imageCount_append, hc, hx]⟩

theorem imagePrefix_popPush {d : ImageData} {els : List Element} {l : Element}
    (hl : els.getLast? = some l) (hlni : imageCount [l] = 0)
    (xs : List Element) (hx : imageCount xs = 0) (h : imagePrefix d els) :
    imagePrefix d (els.dropLast ++ xs) := by
  obtain ⟨tail, rfl, hc⟩ := h
  cases tail with
  | nil =>
    simp only [List.getLast?_singleton, Option.some.injEq] at hl
    rw [← hl] at hlni
    simp [imageCount] at hlni
  | cons t ts =>
    rw [List.getLast?_cons_cons] at hl
    have hdecomp : (t :: ts).dropLast ++ [l] = t :: ts :=
      List.dropLast_append_getLast? l hl
    refine ⟨(t :: ts).dropLast ++ xs, ?_, ?_⟩
    · rw [List.dropLast_cons₂]
      simp
    · have hsplit : imageCount ((t :: ts).dropLast ++ [l]) = imageCount (t :: ts) := by
        rw [hdecomp]
      rw [imageCount_append] at hsplit
      rw [imageCount_append]
      omega

theorem strStep_imagePrefix (env : DecodeEnv) (enc : Option (List Nat))
    (bytes : List Nat) {d : ImageData} (st : TState)
    (h : imagePrefix d st.elements) :
    imagePrefix d (strStep env enc bytes st).elements := by
  simp only [strStep]
  split
  · split
    · exact imagePrefix_append _ (by simp [imageCount]) h
    · rename_i l hg
      split
      · exact imagePrefix_popPush hg (by simp [imageCount]) _ (by simp [imageCount]) h
      · exact imagePrefix_popPush hg (by simp [imageCount]) _ (by simp [imageCount]) h
      · exact imagePrefix_append _ (by simp [imageCount]) h
  · exact h

theorem tmFlush_imagePrefix {d : ImageData} (text : List Nat) (els : List Element)
    (h : imagePrefix d els) : imagePrefix d (tmFlush text els) := by
  simp only [tmFlush]
  split
  · exact imagePrefix_append _ (by simp [imageCount]) h
  · rename_i l hg
    split
    · exact imagePrefix_popPush hg (by simp [imageCount]) _ (by simp [imageCount]) h
    · exact imagePrefix_append _ (by simp [imageCount]) h

theorem endFlush_imagePrefix {d : ImageData} (text : List Nat) (els : List Element)
    (h : imagePrefix d els) : imagePrefix d (endFlush text els) := by
  simp only [endFlush]
  split
  · exact h
  · split
    · exact imagePrefix_append _ (by simp [imageCount]) h
    · rename_i l hg
      split
      · exact imagePrefix_popPush hg (by simp [imageCount]) _ (by simp [imageCount]) h
      · exact imagePrefix_popPush hg (by simp [imageCount]) _ (by simp [imageCount]) h
      · exact h

mutual
theorem collect_one_imagePrefix (env : DecodeEnv) (enc : Option (List Nat))
    {d : ImageData} :
    ∀ (op : PdfObj) (st : TState), imagePrefix d st.elements →
      imagePrefix d (collect_one env enc op st).elements
  | PdfObj.str bytes, st, h => strStep_imagePrefix env enc bytes st h
  | PdfObj.array arr, st, h => collect_text_imagePrefix env enc arr st h
  | PdfObj.integer i, st, h => by
    simp only [collect_one]
    split
    · exact h
    · exact h
  | PdfObj.real r, st, h => h
  | PdfObj.name n, st, h => h
  | PdfObj.other, st, h => h
theorem collect_text_imagePrefix (env : DecodeEnv) (enc : Option (List Nat))
    {d : ImageData} :
    ∀ (ops : List PdfObj) (st : TState), imagePrefix d st.elements →
      imagePrefix d (collect_text env enc ops st).elements
  | [], _, h => h
  | op :: rest, st, h =>
    collect_text_imagePrefix env enc rest _ (collect_one_imagePrefix env enc op st h)
end

theorem applyOp_imagePrefix (env : DecodeEnv) (encodings : List (List Nat × List Nat))
    {d : ImageData} (st : OpState) (op : Op) (st2 : OpState)
    (hok : applyOp env encodings st op = Except.ok st2)
    (h : imagePrefix d st.elements) : imagePrefix d st2.elements := by
  unfold applyOp at hok
  split at hok
  · cases hok
    exact tmFlush_imagePrefix _ _ h
  · split at hok
    · split at hok
      · cases hok
      · split at hok
        · cases hok
          exact h
        · cases hok
    · split at hok
      · cases hok
        exact collect_text_imagePrefix env st.currentEncoding op.operands
          ⟨st.text, st.elements⟩ h
      · split at hok
        · split at hok
          · cases hok
            exact h
          · cases hok
            exact h
        · cases hok
          exact h

theorem runOps_imagePrefix (env : DecodeEnv) (encodings : List (List Nat × List Nat))
    {d : ImageData} :
    ∀ (ops : List Op) (st st2 : OpState),
      runOps env encodings ops st = Except.ok st2 →
      imagePrefix d st.elements → imagePrefix d st2.elements
  | [], st, st2, hok, h => by
    cases hok
    exact h
  | op :: rest, st, st2, hok, h => by
    simp only [runOps] at hok
    split at hok
    · cases hok
    · rename_i st1 h1
      exact runOps_imagePrefix env encodings rest st1 st2 hok
        (applyOp_imagePrefix env encodings st op st1 h1 h)

theorem parse_object_imagePrefix (env : DecodeEnv)
    (encodings : List (List Nat × List Nat)) (ops : List Op)
    {d : ImageData} (els els2 : List Element)
    (hok : parse_object env encodings ops els = Except.ok els2)
    (h : imagePrefix d els) : imagePrefix d els2 := by
  unfold parse_object at hok
  split at hok
  · cases hok
  · rename_i final hfin
    cases hok
    exact endFlush_imagePrefix _ _
      (runOps_imagePrefix env encodings ops ⟨[], els, none⟩ final hfin h)

theorem runContents_imagePrefix (env : DecodeEnv)
    (encodings : List (List Nat × List Nat)) (content : List Op)
    {d : ImageData} :
    ∀ (n : Nat) (els els2 : List Element),
      runContents env encodings content n els = Except.ok els2 →
      imagePrefix d els → imagePrefix d els2
  | 0, els, els2, hok, h => by
    cases hok
    exact h
  | n + 1, els, els2, hok, h => by
    simp only [runContents] at hok
    split at hok
    · cases hok
    · rename_i mid hmid
      exact runContents_imagePrefix env encodings content n mid els2 hok
        (parse_object_imagePrefix env encodings content els mid hmid h)

theorem scanImages_nil_of_filter :
    ∀ xs : List (List Nat × XObj), xs.filter isImageEntry = [] → scanImages xs = []
  | [], _ => rfl
  | nx :: rest, h => by
    by_cases hp : isImageEntry nx = true
    · simp [List.filter_cons, hp] at h
    · rw [List.filter_cons_of_neg (by simpa using hp)] at h
      simp only [scanImages, scanImages_nil_of_filter rest h, List.append_nil]
      simp only [isImageEntry, beq_iff_eq] at hp
      cases hs : nx.2.subtype with
      | none => rfl
      | some stn =>
        have hstn : stn ≠ strCodes ("Image") := fun hcon => hp (by rw [hs, hcon])
        simp [hstn]

theorem scanImages_of_filter :
    ∀ (xs : List (List Nat × XObj)) (nm content : List Nat),
      xs.filter isImageEntry = [(nm, ⟨some (strCodes ("Image")), some content⟩)] →
      scanImages xs = [Element.image (pdfImage nm content)]
  | [], nm, content, h => by cases h
  | nx :: rest, nm, content, h => by
    by_cases hp : isImageEntry nx = true
    · rw [List.filter_cons_of_pos hp] at h
      rw [List.cons.injEq] at h
      obtain ⟨hnx, hrest⟩ := h
      subst hnx
      simp only [scanImages, scanImages_nil_of_filter rest hrest, List.append_nil]
      rfl
    · rw [List.filter_cons_of_neg (by simpa using hp)] at h
      simp only [scanImages, scanImages_of_filter rest nm content h]
      simp only [isImageEntry, beq_iff_eq] at hp
      cases hs : nx.2.subtype with
      | none => rfl
      | some stn =>
        have hstn : stn ≠ strCodes ("Image") := fun hcon => hp (by rw [hs, hcon])
        simp [hstn]

/-- Claim C7: for a page whose resource dictionary lists exactly one
XObject with Subtype Image (a stream of raw content bytes), a successful
parse yields the Image element first, carrying the raw stream bytes with
length preserved (no decompression), and no further Image element among
that page's text-derived elements. -/
theorem c7_image_extraction (env : DecodeEnv) (p : Page) (nm content : List Nat)
    (hf : p.xobjects.filter isImageEntry =
      [(nm, ⟨some (strCodes ("Image")), some content⟩)])
    (doc : Document) (hp : parse env [p] = Except.ok doc) :
    ∃ rest, doc.elements = Element.image (pdfImage nm content) :: rest ∧
      imageCount rest = 0 ∧ (pdfImage nm content).bytes.length = content.length := by
  unfold parse at hp
  split at hp
  · cases hp
  · rename_i els hels
    cases hp
    simp only [runPages] at hels
    split at hels
    · cases hels
    · rename_i els1 hpage
      have hel : els1 = els := by
        simpa [runPages] using hels
      subst hel
      unfold parse_page at hpage
      rw [scanImages_of_filter p.xobjects nm content hf] at hpage
      have hpre : imagePrefix (pdfImage nm content) els1 :=
        runContents_imagePrefix env p.fonts p.content p.contentsCount _ els1 hpage
          ⟨[], by simp, rfl⟩
      obtain ⟨tail, htail, hcount⟩ := hpre
      exact ⟨tail, by simp [Document.new, htail], hcount, rfl⟩

/-- Witness for C7 at a concrete one-image page. -/
theorem c7_image_extraction_witness :
    ∃ rest, (Document.new [Element.image (pdfImage [70] [9, 9])]).elements =
        Element.image (pdfImage [70] [9, 9]) :: rest ∧
      imageCount rest = 0 ∧ (pdfImage [70] [9, 9]).bytes.length = ([9, 9] : List Nat).length :=
  c7_image_extraction asciiEnv ⟨[([70], ⟨some (strCodes ("Image")), some [9, 9]⟩)], [], [], 1⟩
    [70] [9, 9] rfl (Document.new [Element.image (pdfImage [70] [9, 9])]) rfl

theorem getD_set (v : Nat) : ∀ (ml : List Nat) (i j : Nat),
    (ml.set i v).getD j 0 = if i = j ∧ i < ml.length then v else ml.getD j 0
  | [], i, j => by simp
  | a :: ml, 0, 0 => by simp
  | a :: ml, 0, j + 1 => by simp
  | a :: ml, i + 1, 0 => by simp
  | a :: ml, i + 1, j + 1 => by
    simp only [List.set, List.getD_cons_succ, List.length_cons, getD_set v ml i j]
    by_cases hij : i = j
    · subst hij
      by_cases hlt : i < ml.length
      · rw [if_pos ⟨rfl, hlt⟩, if_pos ⟨rfl, by omega⟩]
      · rw [if_neg (by omega), if_neg (by omega)]
    · rw [if_neg (by omega), if_neg (by omega)]

theorem get?_eq_some_getD : ∀ (ml : List Nat) (i : Nat), i < ml.length →
    ml.get? i = some (ml.getD i 0)
  | [], i, h => absurd h (by simp)
  | a :: ml, 0, _ => rfl
  | a :: ml, i + 1, h => get?_eq_some_getD ml i (by simpa using h)

theorem get?_some_lt {α : Type} : ∀ (l : List α) (i : Nat) (x : α),
    l.get? i = some x → i < l.length
  | [], i, x, h => by simp [List.get?] at h
  | a :: l, 0, x, _ => by simp
  | a :: l, i + 1, x, h => by
    have := get?_some_lt l i x (by simpa using h)
    simpa using this

theorem headerTextLens_length : ∀ headers : List ListItem,
    headers.all isTextItem = true → (headerTextLens headers).length = headers.length
  | [], _ => rfl
  | ListItem.mk inner :: rest, h => by
    rw [List.all_cons, Bool.and_eq_true] at h
    obtain ⟨h1, h2⟩ := h
    have IH := headerTextLens_length rest h2
    cases inner with
    | text t sz =>
      simp only [headerTextLens, List.filterMap_cons, ListItem.element] at IH ⊢
      simp [IH]
    | header a b => exact absurd h1 (by simp [isTextItem, isTextElement, ListItem.element])
    | paragraph a => exact absurd h1 (by simp [isTextItem, isTextElement, ListItem.element])
    | list a b => exact absurd h1 (by simp [isTextItem, isTextElement, ListItem.element])
    | table a b => exact absurd h1 (by simp [isTextItem, isTextElement, ListItem.element])
    | hyperlink a b c d =>
      exact absurd h1 (by simp [isTextItem, isTextElement, ListItem.element])
    | image a => exact absurd h1 (by simp [isTextItem, isTextElement, ListItem.element])

theorem rowPass_length : ∀ (cells : List ListItem) (ml : List Nat) (i : Nat),
    (rowPass ml i cells).length = ml.length
  | [], ml, i => rfl
  | c :: cs, ml, i => by
    simp only [rowPass]
    split
    · split
      · rw [rowPass_length cs _ (i + 1)]
        simp
      · exact rowPass_length cs ml (i + 1)
    · exact rowPass_length cs ml (i + 1)

theorem widthsFold_length : ∀ (rows : List TableRow) (ml : List Nat),
    (rows.foldl (fun m r => rowPass m 0 r.cells) ml).length = ml.length
  | [], ml => rfl
  | r :: rs, ml => by
    rw [List.foldl_cons, widthsFold_length rs _, rowPass_length]

theorem rowPass_mono : ∀ (cells : List ListItem) (ml : List Nat) (i j : Nat),
    ml.getD j 0 ≤ (rowPass ml i cells).getD j 0
  | [], ml, i, j => le_refl _
  | c :: cs, ml, i, j => by
    simp only [rowPass]
    split
    · rename_i t sz heq
      split
      · rename_i hlt
        refine le_trans ?_ (rowPass_mono cs _ (i + 1) j)
        rw [getD_set]
        split
        · rename_i hc
          obtain ⟨rfl, _⟩ := hc
          exact le_max_left _ _
        · exact le_refl _
      · exact rowPass_mono cs ml (i + 1) j
    · exact rowPass_mono cs ml (i + 1) j

theorem widthsFold_mono : ∀ (rows : List TableRow) (ml : List Nat) (j : Nat),
    ml.getD j 0 ≤ (rows.foldl (fun m r => rowPass m 0 r.cells) ml).getD j 0
  | [], ml, j => le_refl _
  | r :: rs, ml, j => by
    rw [List.foldl_cons]
    exact le_trans (rowPass_mono r.cells ml 0 j) (widthsFold_mono rs _ j)

theorem headerTextLens_getD : ∀ headers : List ListItem,
    headers.all isTextItem = true →
    ∀ (k : Nat) (li : ListItem), headers.get? k = some li →
    ∃ t sz, li = ListItem.mk (Element.text t sz) ∧
      (headerTextLens headers).getD k 0 = rustStrLen t
  | [], _, k, li, h => by simp at h
  | ListItem.mk inner :: rest, hall, k, li, h => by
    rw [List.all_cons, Bool.and_eq_true] at hall
    obtain ⟨h1, h2⟩ := hall
    cases inner with
    | text t sz =>
      cases k with
      | zero =>
        refine ⟨t, sz, ?_, ?_⟩
        · have : (ListItem.mk (Element.text t sz)) = li := by simpa using h
          exact this.symm
        · simp [headerTextLens, List.filterMap_cons, ListItem.element]
      | succ k =>
        obtain ⟨t2, sz2, hli, hval⟩ := headerTextLens_getD rest h2 k li (by simpa using h)
        refine ⟨t2, sz2, hli, ?_⟩
        simpa [headerTextLens, List.filterMap_cons, ListItem.element] using hval
    | header a b => exact absurd h1 (by simp [isTextItem, isTextElement, ListItem.element])
    | paragraph a => exact absurd h1 (by simp [isTextItem, isTextElement, ListItem.element])
    | list a b => exact absurd h1 (by simp [isTextItem, isTextElement, ListItem.element])
    | table a b => exact absurd h1 (by simp [isTextItem, isTextElement, ListItem.element])
    | hyperlink a b c d =>
      exact absurd h1 (by simp [isTextItem, isTextElement, ListItem.element])
    | image a => exact absurd h1 (by simp [isTextItem, isTextElement, ListItem.element])

theorem rowPass_establish : ∀ (cells : List ListItem) (ml : List Nat)
    (i k t : _) (sz : Nat),
    cells.get? k = some (ListItem.mk (Element.text t sz)) →
    i + k < ml.length →
    rustStrLen t ≤ (rowPass ml i cells).getD (i + k) 0
  | [], ml, i, k, t, sz, h, hlt => by simp at h
  | c :: cs, ml, i, 0, t, sz, h, hlt => by
    have hc : c = ListItem.mk (Element.text t sz) := by simpa using h
    subst hc
    simp only [rowPass, ListItem.element]
    rw [if_pos (by omega)]
    refine le_trans ?_ (rowPass_mono cs _ (i + 1) (i + 0))
    rw [getD_set]
    rw [if_pos ⟨by omega, by omega⟩]
    exact le_max_right _ _
  | c :: cs, ml, i, k + 1, t, sz, h, hlt => by
    have heq : i + (k + 1) = (i + 1) + k := by omega
    rw [heq]
    simp only [rowPass]
    split
    · split
      · exact rowPass_establish cs _ (i + 1) k t sz (by simpa using h)
          (by simp; omega)
      · exact rowPass_establish cs ml (i + 1) k t sz (by simpa using h) (by omega)
    · exact rowPass_establish cs ml (i + 1) k t sz (by simpa using h) (by omega)

theorem widthsFold_establish : ∀ (rows : List TableRow) (ml : List Nat)
    (r : TableRow), r ∈ rows →
    ∀ (k t : _) (sz : Nat), r.cells.get? k = some (ListItem.mk (Element.text t sz)) →
    k < ml.length →
    rustStrLen t ≤ (rows.foldl (fun m r2 => rowPass m 0 r2.cells) ml).getD k 0
  | [], ml, r, hr, _, _, _, _, _ => absurd hr (by simp)
  | r0 :: rs, ml, r, hr, k, t, sz, hcell, hlt => by
    rw [List.foldl_cons]
    rcases List.mem_cons.mp hr with rfl | hmem
    · refine le_trans ?_ (widthsFold_mono rs _ k)
      have := rowPass_establish r.cells ml 0 k t sz hcell (by omega)
      simpa using this
    · exact widthsFold_establish rs _ r hmem k t sz hcell
        (by rw [rowPass_length]; omega)

theorem renderHeaderCells_total : ∀ (headers : List ListItem) (ml : List Nat)
    (i : Nat) (md : List Nat),
    (∀ (k : Nat) (li : ListItem), headers.get? k = some li →
      ∃ t sz, li = ListItem.mk (Element.text t sz) ∧
        i + k < ml.length ∧ rustStrLen t ≤ ml.getD (i + k) 0) →
    ∃ md2, renderHeaderCells ml i headers md = some md2
  | [], ml, i, md, _ => ⟨md, rfl⟩
  | li :: hs, ml, i, md, hcond => by
    obtain ⟨t, sz, hli, hlt, hle⟩ := hcond 0 li (by simp)
    subst hli
    simp only [renderHeaderCells, ListItem.element]
    have hm : ml.get? i = some (ml.getD i 0) := get?_eq_some_getD ml i (by omega)
    simp only [hm]
    rw [if_pos (by simpa using hle)]
    exact renderHeaderCells_total hs ml (i + 1) _
      (fun k li2 hk => by
        obtain ⟨t2, sz2, hli2, hlt2, hle2⟩ := hcond (k + 1) li2 (by simpa using hk)
        exact ⟨t2, sz2, hli2, by omega, by
          have heq : i + (k + 1) = (i + 1) + k := by omega
          rw [heq] at hle2
          exact hle2⟩)

theorem renderRowCells_total : ∀ (cells : List ListItem) (ml : List Nat)
    (i : Nat) (md : List Nat),
    (∀ (k t : _) (sz : Nat), cells.get? k = some (ListItem.mk (Element.text t sz)) →
      i + k < ml.length ∧ rustStrLen t ≤ ml.getD (i + k) 0) →
    ∃ md2, renderRowCells ml i cells md = some md2
  | [], ml, i, md, _ => ⟨md, rfl⟩
  | ListItem.mk inner :: cs, ml, i, md, hcond => by
    have hrest : ∀ (k t : _) (sz : Nat),
        cs.get? k = some (ListItem.mk (Element.text t sz)) →
        (i + 1) + k < ml.length ∧ rustStrLen t ≤ ml.getD ((i + 1) + k) 0 :=
      fun k t sz hk => by
        obtain ⟨hlt2, hle2⟩ := hcond (k + 1) t sz (by simpa using hk)
        have heq : i + (k + 1) = (i + 1) + k := by omega
        rw [heq] at hlt2 hle2
        exact ⟨hlt2, hle2⟩
    cases inner with
    | text t sz =>
      obtain ⟨hlt, hle⟩ := hcond 0 t sz (by simp)
      simp only [renderRowCells, ListItem.element]
      have hm : ml.get? i = some (ml.getD i 0) := get?_eq_some_getD ml i (by omega)
      simp only [hm]
      rw [if_pos (by simpa using hle)]
      exact renderRowCells_total cs ml (i + 1) _ hrest
    | header a b => exact renderRowCells_total cs ml (i + 1) md hrest
    | paragraph a => exact renderRowCells_total cs ml (i + 1) md hrest
    | list a b => exact renderRowCells_total cs ml (i + 1) md hrest
    | table a b => exact renderRowCells_total cs ml (i + 1) md hrest
    | hyperlink a b c d => exact renderRowCells_total cs ml (i + 1) md hrest
    | image a => exact renderRowCells_total cs ml (i + 1) md hrest

theorem renderRows_total : ∀ (rows : List TableRow) (ml : List Nat) (md : List Nat),
    (∀ r ∈ rows, ∀ (k t : _) (sz : Nat),
      r.cells.get? k = some (ListItem.mk (Element.text t sz)) →
      k < ml.length ∧ rustStrLen t ≤ ml.getD k 0) →
    ∃ md2, renderRows ml rows md = some md2
  | [], ml, md, _ => ⟨md, rfl⟩
  | r :: rs, ml, md, hcond => by
    obtain ⟨md2, hmd2⟩ := renderRowCells_total r.cells ml 0 md
      (fun k t sz hk => by
        obtain ⟨hlt, hle⟩ := hcond r (by simp) k t sz hk
        exact ⟨by omega, by simpa using hle⟩)
    simp only [renderRows, hmd2]
    exact renderRows_total rs ml _ (fun r2 hr2 => hcond r2 (by simp [hr2]))

theorem renderTable_total (headers : List ListItem) (rows : List TableRow)
    (md : List Nat) (hall : headers.all isTextItem = true)
    (hfit : rowsFit headers rows = true) :
    ∃ md2, renderTable headers rows md = some md2 := by
  have hlen : (tableWidths headers rows).length = headers.length := by
    simp only [tableWidths]
    rw [widthsFold_length, headerTextLens_length headers hall]
  obtain ⟨md1, hmd1⟩ := renderHeaderCells_total headers (tableWidths headers rows) 0 md
    (fun k li hk => by
      obtain ⟨t, sz, hli, hval⟩ := headerTextLens_getD headers hall k li hk
      have hklt : k < headers.length := get?_some_lt headers k li hk
      refine ⟨t, sz, hli, by omega, ?_⟩
      have hmono : (headerTextLens headers).getD k 0 ≤
          (tableWidths headers rows).getD k 0 := by
        simp only [tableWidths]
        exact widthsFold_mono rows (headerTextLens headers) k
      simp only [Nat.zero_add]
      omega)
  obtain ⟨md4, hmd4⟩ := renderRows_total rows (tableWidths headers rows)
    (md1 ++ [124, 10] ++ renderSeparator (tableWidths headers rows) ++ [124, 10])
    (fun r hr k t sz hk => by
      have hklt : k < r.cells.length := get?_some_lt r.cells k _ hk
      have hfitr : r.cells.length ≤ headers.length := by
        have := List.all_eq_true.mp hfit r hr
        simpa using this
      refine ⟨by omega, ?_⟩
      simp only [tableWidths]
      exact widthsFold_establish rows (headerTextLens headers) r hr k t sz hk
        (by rw [headerTextLens_length headers hall]; omega))
  refine ⟨md4 ++ [10], ?_⟩
  simp only [renderTable, hmd1, hmd4]

mutual
theorem generate_element_total : ∀ (e : Element) (dep : Nat) (st : GenState),
    tablesOk e = true →
    ∃ st2, generate_element e dep st = some st2 ∧
      st2.list_counters.length = st.list_counters.length ∧
      st2.list_types.length = st.list_types.length
  | Element.text t sz, dep, st, _ => by
    simp only [generate_element]
    split
    · exact ⟨_, rfl, rfl, rfl⟩
    · exact ⟨_, rfl, rfl, rfl⟩
  | Element.header lv t, dep, st, _ => ⟨_, rfl, rfl, rfl⟩
  | Element.hyperlink a b c d, dep, st, _ => by
    simp only [generate_element]
    split
    · exact ⟨_, rfl, rfl, rfl⟩
    · exact ⟨_, rfl, rfl, rfl⟩
  | Element.image data, dep, st, _ => ⟨_, rfl, rfl, rfl⟩
  | Element.paragraph els, dep, st, h => by
    obtain ⟨st2, hst2, hc, ht⟩ := generate_elements_total els dep st
      (by simpa [tablesOk] using h)
    exact ⟨{ st2 with markdown := st2.markdown ++ [10, 10] },
      by simp only [generate_element, hst2], by simpa using hc, by simpa using ht⟩
  | Element.table hs rs, dep, st, h => by
    rw [tablesOk, Bool.and_eq_true] at h
    obtain ⟨md2, hmd⟩ := renderTable_total hs rs st.markdown h.1 h.2
    exact ⟨{ st with markdown := md2 },
      by simp only [generate_element, hmd], rfl, rfl⟩
  | Element.list lis nb, dep, st, h => by
    obtain ⟨st2, hst2, hc, ht⟩ := generate_list_items_total lis (dep + 1)
      { st with list_counters := st.list_counters ++ [0],
                list_types := st.list_types ++ [nb] }
      (by simpa [tablesOk] using h) (by simp) (by simp)
    simp only [List.length_append, List.length_cons, List.length_nil] at hc ht
    simp only [generate_element, hst2]
    split
    · refine ⟨_, rfl, ?_, ?_⟩ <;> simp only [List.length_dropLast, hc, ht] <;> omega
    · refine ⟨_, rfl, ?_, ?_⟩ <;> simp only [List.length_dropLast, hc, ht] <;> omega

theorem generate_elements_total : ∀ (es : List Element) (dep : Nat) (st : GenState),
    tablesOkList es = true →
    ∃ st2, generate_elements es dep st = some st2 ∧
      st2.list_counters.length = st.list_counters.length ∧
      st2.list_types.length = st.list_types.length
  | [], dep, st, _ => ⟨st, rfl, rfl, rfl⟩
  | e :: rest, dep, st, h => by
    rw [tablesOkList, Bool.and_eq_true] at h
    obtain ⟨st1, h1, hc1, ht1⟩ := generate_element_total e dep st h.1
    obtain ⟨st2, h2, hc2, ht2⟩ := generate_elements_total rest dep st1 h.2
    exact ⟨st2, by simp only [generate_elements, h1, h2], by omega, by omega⟩

theorem generate_list_item_total : ∀ (li : ListItem) (dep : Nat) (st : GenState),
    tablesOk li.element = true →
    st.list_types ≠ [] → st.list_counters ≠ [] →
    ∃ st2, generate_list_item li dep st = some st2 ∧
      st2.list_counters.length = st.list_counters.length ∧
      st2.list_types.length = st.list_types.length
  | ListItem.mk inner, dep, st, h, htypes, hcounters => by
    have hclen : 0 < st.list_counters.length := List.length_pos.mpr hcounters
    have hin : tablesOk inner = true := by simpa [ListItem.element] using h
    simp only [generate_list_item]
    cases hT : st.list_types.getLast? with
    | none => exact absurd (List.getLast?_eq_none_iff.mp hT) htypes
    | some numbered =>
      cases hM : isTextElement inner with
      | false =>
        cases numbered with
        | false =>
          obtain ⟨st2, h2, hc2, ht2⟩ := generate_element_total inner dep _ hin
          simp only [Bool.false_eq_true, reduceIte]
          rw [h2]
          exact ⟨st2, rfl, by simpa using hc2, by simpa using ht2⟩
        | true =>
          cases hC : st.list_counters.getLast? with
          | none => exact absurd (List.getLast?_eq_none_iff.mp hC) hcounters
          | some counter =>
            obtain ⟨st2, h2, hc2, ht2⟩ := generate_element_total inner dep _ hin
            simp only [Bool.false_eq_true, reduceIte]
            rw [h2]
            exact ⟨st2, rfl, by simpa using hc2, by simpa using ht2⟩
      | true =>
        cases numbered with
        | false =>
          obtain ⟨st2, h2, hc2, ht2⟩ := generate_element_total inner dep _ hin
          simp only [Bool.false_eq_true, reduceIte]
          rw [h2]
          exact ⟨{ st2 with markdown := st2.markdown ++ [10] }, rfl,
            by simpa using hc2, by simpa using ht2⟩
        | true =>
          cases hC : st.list_counters.getLast? with
          | none => exact absurd (List.getLast?_eq_none_iff.mp hC) hcounters
          | some counter =>
            obtain ⟨st2, h2, hc2, ht2⟩ := generate_element_total inner dep _ hin
            simp only [reduceIte]
            rw [h2]
            refine ⟨{ st2 with markdown := st2.markdown ++ [10] }, rfl, ?_,
              by simpa using ht2⟩
            have hlen2 : (st.list_counters.dropLast ++ [counter + 1]).length =
                st.list_counters.length := by
              simp only [List.length_append, List.length_dropLast, List.length_cons,
                List.length_nil]
              omega
            simp only [hlen2] at hc2
            simpa using hc2

theorem generate_list_items_total : ∀ (lis : List ListItem) (dep : Nat) (st : GenState),
    tablesOkItems lis = true →
    st.list_types ≠ [] → st.list_counters ≠ [] →
    ∃ st2, generate_list_items lis dep st = some st2 ∧
      st2.list_counters.length = st.list_counters.length ∧
      st2.list_types.length = st.list_types.length
  | [], dep, st, _, _, _ => ⟨st, rfl, rfl, rfl⟩
  | ListItem.mk inner :: rest, dep, st, h, htypes, hcounters => by
    rw [tablesOkItems, Bool.and_eq_true] at h
    obtain ⟨st1, h1, hc1, ht1⟩ := generate_list_item_total (ListItem.mk inner) dep st
      (by simpa [ListItem.element] using h.1) htypes hcounters
    obtain ⟨st2, h2, hc2, ht2⟩ := generate_list_items_total rest dep st1 h.2
      (by
        intro hcon
        rw [hcon] at ht1
        simp at ht1
        exact htypes (List.length_eq_zero.mp ht1.symm))
      (by
        intro hcon
        rw [hcon] at hc1
        simp at hc1
        exact hcounters (List.length_eq_zero.mp hc1.symm))
    exact ⟨st2, by simp only [generate_list_items, h1, h2], by omega, by omega⟩
end

/-- Claim C10 amended: the table renderer computes its width vector only
from the Text headers (one entry each) and from Text row cells at
positions strictly below that vector's length; for every Document in
which every table header wraps a Text element and no row is wider than
the header list, generate completes without a panic (no out-of-bounds
width lookup and no underflowing padding). -/
theorem c10_tables_amended :
    (∀ (headers : List ListItem) (rows : List TableRow),
      (tableWidths headers rows).length = (headerTextLens headers).length) ∧
    (∀ doc : Document,
      tablesOkList (doc.page_header ++ doc.elements ++ doc.page_footer) = true →
      ∃ st, generate doc = some st) := by
  constructor
  · intro headers rows
    simp only [tableWidths]
    exact widthsFold_length rows (headerTextLens headers)
  · intro doc h
    obtain ⟨st2, h2, _, _⟩ := generate_elements_total _ 0 ⟨[], [], [], [], 0⟩ h
    exact ⟨st2, by simpa [generate] using h2⟩

/-- Witness for C10 amended at a concrete one-column table document. -/
theorem c10_tables_amended_witness :
    ∃ st, generate (Document.new
      [Element.table [ListItem.mk (Element.text [104] 8)]
        [TableRow.mk [ListItem.mk (Element.text [120] 8)]]]) = some st :=
  c10_tables_amended.2 (Document.new
      [Element.table [ListItem.mk (Element.text [104] 8)]
        [TableRow.mk [ListItem.mk (Element.text [120] 8)]]]) (by rfl)

/-- Counterexample for C10 as stated: a table whose single header wraps
a Hyperlink (not Text) with a one-cell row satisfies the claim's
row-width hypothesis, yet generate panics (the width vector is empty and
the Text cell's lookup is out of bounds). -/
theorem c10_tables_counterexample :
    ([ListItem.mk (Element.text [120] 8)] : List ListItem).length ≤
      ([ListItem.mk (Element.hyperlink [] [] [97] 8)] : List ListItem).length ∧
    generate (Document.new [Element.table
      [ListItem.mk (Element.hyperlink [] [] [97] 8)]
      [TableRow.mk [ListItem.mk (Element.text [120] 8)]]]) = none := by
  refine ⟨by simp, rfl⟩

end Shiva
